import Mathlib

/-!
Verification of `gitosis/my_fnmatch.py` (a hacked copy of Python's `fnmatch`
module in which a run of two or more `*` crosses `/` while a single `*` does
not).  The module translates a shell glob pattern into a Python regular
expression (`translate`), compiles it with `re.compile`, caches the compiled
object in a process-wide dict `_cache`, and matches with `regex.match(name)
is not None`.

Shallow embedding:
* `translateFuel` / `translateL` / `translate` port the `while` loop of
  `translate` over `List Char`.  Instead of a regex string the translator
  emits a list of `RTok` instructions, one per regex construct the source
  appends (`.*`, `[^/]*`, `.`, `re.escape(c)`, `\[`, `[stuff]`); the
  trailing `"$"` the source appends is the `dollarEnd` acceptance test in
  the matcher.  The fuel argument only bounds the loop: the loop consumes
  at least one pattern character per iteration, so fuel `pat.length` is
  never exhausted.
* `reMatchAux` is the semantics of Python `re`'s anchored `match` for the
  emitted constructs: `.` matches any character except `'\n'`, `[^/]*`
  matches any run without `'/'` (newlines allowed), `.*` any run without
  `'\n'`, and the final `"$"` accepts at the end of the string or just
  before a `'\n'` that is the last character.
* `clsBody` / `clsItems` / `clsMatch` are the semantics of a Python regex
  character class `[stuff]` as `translate` emits it: optional leading `^`
  negation, backslash escapes (the source doubles every backslash in the
  class body, and escapes a leading literal `^`), and `a-b` ranges by code
  point.  `re.compile` raises `re.error` on a reversed range such as
  `[z-a]`; this is the only failure point of the module, modelled by
  `clsItems` returning `none` and the entry points returning `none`.
* `fnmatchcase`, `fnmatch`, and the cache-threading variants
  `fnmatchcaseCache` / `filterPosix` model the public entry points;
  fallible compilation makes them `Option`-valued (`none` = the Python
  call raises `re.error`).
-/

namespace Gitosis

/-- One instruction of the translated pattern, mirroring the regex fragments
`translate` appends: `star` is `".*"` (from a star run compiled with the
`multistars` flag set), `starNoSlash` is `"[^/]*"` (single star), `dot` is
`"."` (from `?`), `lit c` is `re.escape(c)` (a literal character), and
`litLBracket` is `"\\["` (an unterminated class degraded to a literal `[`);
`cls stuff` is `"[" + stuff + "]"` with `stuff` exactly the transformed class
body the source builds. -/
inductive RTok where
  | star : RTok
  | starNoSlash : RTok
  | dot : RTok
  | lit : Char → RTok
  | litLBracket : RTok
  | cls : List Char → RTok
deriving DecidableEq, Repr

/-- Index of the first `']'` in a character list, if any: the scan
`while j < n and pat[j] != ']': j = j+1` of the source. -/
def findRBracket : List Char → Option Nat
  | [] => none
  | c :: rest => if c = ']' then some 0 else (findRBracket rest).map (· + 1)

/-- The terminator scan of the `'['` branch of `translate`: given the pattern
characters after the `'['`, skip one optional leading `'!'` and one further
optional leading `']'`, then look for the terminating `']'`.  Returns
`some (pat[i:j], pat[j+1:])` when a terminator is found at offset `j`, and
`none` when the scan falls off the end (`j >= n`). -/
def classScan (l : List Char) : Option (List Char × List Char) :=
  let k0 : Nat := match l with
    | '!' :: _ => 1
    | _ => 0
  let k1 : Nat := match l.drop k0 with
    | ']' :: _ => k0 + 1
    | _ => k0
  match findRBracket (l.drop k1) with
  | none => none
  | some idx => some (l.take (k1 + idx), l.drop (k1 + idx + 1))

/-- `stuff.replace('\\', '\\\\')` of the source: double every backslash of
the class body. -/
def replBackslash (l : List Char) : List Char :=
  l.foldr (fun c acc => if c = '\\' then '\\' :: '\\' :: acc else c :: acc) []

/-- The class-body transformations of `translate`: double backslashes, then
rewrite a leading `'!'` to the regex negation marker `'^'`, and escape a
leading literal `'^'`. -/
def classStuff (stuff0 : List Char) : List Char :=
  match replBackslash stuff0 with
  | '!' :: t => '^' :: t
  | '^' :: t => '\\' :: '^' :: t
  | s => s

/-- The `while i < n` loop of `translate`.  State: the remaining pattern and
the `multistars` flag, which the source initialises once before the loop and
never resets (it is sticky: once a multi-star run is seen, every later star
run also compiles to `".*"`).  A star run of length at least 2 is consumed
one star at a time with the flag forced to `true`; the run emits a single
token when only one star remains.  The fuel argument only bounds the loop
(each case consumes one pattern character, except the class case which
consumes at least one), so fuel `l.length` always suffices. -/
def translateFuel : Nat → List Char → Bool → List RTok
  | 0, _, _ => []
  | fuel + 1, l, ms =>
    match l with
    | [] => []
    | '*' :: '*' :: rest => translateFuel fuel ('*' :: rest) true
    | '*' :: rest =>
      (if ms then RTok.star else RTok.starNoSlash) :: translateFuel fuel rest ms
    | '?' :: rest => RTok.dot :: translateFuel fuel rest ms
    | '[' :: rest =>
      (match classScan rest with
      | none => RTok.litLBracket :: translateFuel fuel rest ms
      | some (stuff0, after) =>
        RTok.cls (classStuff stuff0) :: translateFuel fuel after ms)
    | c :: rest => RTok.lit c :: translateFuel fuel rest ms

/-- `translate` on a list of pattern characters, with the `multistars` flag
exposed (the source initialises it to `False`). -/
def translateL (l : List Char) (ms : Bool) : List RTok :=
  translateFuel l.length l ms

/-- `translate(pat)` of the source (the trailing `"$"` it appends is the
`dollarEnd` acceptance in the matcher). -/
def translate (pat : List Char) : List RTok :=
  translateL pat false

/-- Negation test of a Python regex class body: a leading `'^'` negates the
class and the rest is the member list. -/
def clsBody : List Char → Bool × List Char
  | '^' :: rest => (true, rest)
  | l => (false, l)

/-- Parser of the member list of a Python regex character class, returning
the members as code-point ranges (a single member `c` is the range `(c, c)`).
`a-b` is a range unless the `-` is the last character (then it is a literal);
`\c` is the literal `c` (the source only ever emits doubled backslashes and
an escaped leading `^`).  Returns `none` exactly when `re.compile` raises:
on a reversed range (`ord lo > ord hi`, e.g. `[z-a]`) or a trailing lone
backslash. -/
def clsItems : List Char → Option (List (Char × Char))
  | [] => some []
  | ['\\'] => none
  | '\\' :: _ :: '-' :: ['\\'] => none
  | '\\' :: a :: '-' :: '\\' :: b :: rest =>
    if a.toNat ≤ b.toNat then ((a, b) :: ·) <$> clsItems rest else none
  | '\\' :: a :: ['-'] => some [(a, a), ('-', '-')]
  | '\\' :: a :: '-' :: b :: rest =>
    if a.toNat ≤ b.toNat then ((a, b) :: ·) <$> clsItems rest else none
  | '\\' :: a :: rest => ((a, a) :: ·) <$> clsItems rest
  | _ :: '-' :: ['\\'] => none
  | a :: '-' :: '\\' :: b :: rest =>
    if a.toNat ≤ b.toNat then ((a, b) :: ·) <$> clsItems rest else none
  | a :: ['-'] => some [(a, a), ('-', '-')]
  | a :: '-' :: b :: rest =>
    if a.toNat ≤ b.toNat then ((a, b) :: ·) <$> clsItems rest else none
  | a :: rest => ((a, a) :: ·) <$> clsItems rest

/-- Membership of a character in a compiled class `[stuff]`: in the listed
ranges, flipped by the negation marker.  (Only evaluated on bodies that
compiled, i.e. `clsItems` returned `some`.) -/
def clsMatch (stuff : List Char) (c : Char) : Bool :=
  let nb := clsBody stuff
  match clsItems nb.2 with
  | none => false
  | some items =>
    nb.1 != items.any (fun p => p.1.toNat ≤ c.toNat && c.toNat ≤ p.2.toNat)

/-- `re.compile` succeeds on the translated pattern iff every emitted class
body parses (no reversed range). -/
def tokOk : RTok → Bool
  | RTok.cls stuff => (clsItems (clsBody stuff).2).isSome
  | _ => true

/-- Whether `re.compile(translate(pat))` succeeds. -/
def compileOk (toks : List RTok) : Bool :=
  toks.all tokOk

/-- The trailing `"$"` of the translated regex: Python's `'$'` matches at the
end of the string, or just before a `'\n'` that is the last character. -/
def dollarEnd : List Char → Bool
  | [] => true
  | [c] => c == '\n'
  | _ => false

/-- Backtracking loop for a starred construct: accept iff the continuation
`f` accepts some suffix reachable by consuming characters on which `excl`
is false (`excl` is `(· == '\n')` for `".*"` and `(· == '/')` for
`"[^/]*"`). -/
def starLoop (f : List Char → Bool) (excl : Char → Bool) : List Char → Bool
  | [] => f []
  | c :: s => f (c :: s) || (!excl c && starLoop f excl s)

/-- Anchored matching of the instruction sequence against the candidate:
the semantics of `re.compile(res + "$").match(name)` for the constructs
`translate` emits.  `.` refuses `'\n'`; a class matches per `clsMatch`
(negated classes do match `'\n'`); the empty instruction list is the
trailing `"$"`. -/
def reMatchAux : List RTok → List Char → Bool
  | [], s => dollarEnd s
  | RTok.star :: ts, s => starLoop (reMatchAux ts) (· == '\n') s
  | RTok.starNoSlash :: ts, s => starLoop (reMatchAux ts) (· == '/') s
  | RTok.dot :: ts, s =>
    match s with
    | [] => false
    | c :: s => c != '\n' && reMatchAux ts s
  | RTok.lit d :: ts, s =>
    match s with
    | [] => false
    | c :: s => c == d && reMatchAux ts s
  | RTok.litLBracket :: ts, s =>
    match s with
    | [] => false
    | c :: s => c == '[' && reMatchAux ts s
  | RTok.cls stuff :: ts, s =>
    match s with
    | [] => false
    | c :: s => clsMatch stuff c && reMatchAux ts s

/-- `fnmatchcase(name, pat)` without the cache (the cache is semantically
transparent, see `fnmatchcaseCache`): translate, compile (`none` = the
`re.compile` call raises), and test `regex.match(name) is not None`. -/
def fnmatchcaseL (name pat : List Char) : Option Bool :=
  let toks := translate pat
  if compileOk toks then some (reMatchAux toks name) else none

/-- `fnmatchcase(name, pat)` on strings. -/
def fnmatchcase (name pat : String) : Option Bool :=
  fnmatchcaseL name.data pat.data

/-- `str.lower()` of CPython restricted to the ASCII range (`Char.toLower`
lowercases exactly `'A'`–`'Z'`), which is the fragment the module's inputs
exercise. -/
def pyLower (s : String) : String :=
  ⟨s.data.map Char.toLower⟩

/-- `fnmatch(name, pat)`: lower-case both arguments, then delegate to
`fnmatchcase`. -/
def fnmatch (name pat : String) : Option Bool :=
  fnmatchcase (pyLower name) (pyLower pat)

/-- The process-wide `_cache` dict: pattern characters to compiled
instructions. -/
abbrev Cache := List (List Char × List RTok)

/-- `pat in _cache` / `_cache[pat]`: association-list lookup. -/
def cacheFind : Cache → List Char → Option (List RTok)
  | [], _ => none
  | (p, r) :: rest, pat => if p = pat then some r else cacheFind rest pat

/-- `fnmatchcase` with the cache explicit: on a miss, translate and compile
(`none` = `re.compile` raises, and nothing is inserted), insert, and match;
on a hit, match with the cached instructions.  Returns the boolean and the
cache after the call. -/
def fnmatchcaseCache (cache : Cache) (name pat : List Char) :
    Option (Bool × Cache) :=
  match cacheFind cache pat with
  | some toks => some (reMatchAux toks name, cache)
  | none =>
    if compileOk (translate pat) then
      some (reMatchAux (translate pat) name, (pat, translate pat) :: cache)
    else
      none

/-- `filter(names, pat)` on the POSIX branch, where `os.path.normcase` is the
identity (the source tests `os.path is posixpath` and skips per-candidate
normalization): one cache lookup / compilation for the whole call, then the
loop `for name in names: if match(name): result.append(name)`. -/
def filterPosix (cache : Cache) (names : List (List Char)) (pat : List Char) :
    Option (List (List Char) × Cache) :=
  match cacheFind cache pat with
  | some toks => some (names.filter (fun n => reMatchAux toks n), cache)
  | none =>
    if compileOk (translate pat) then
      some (names.filter (fun n => reMatchAux (translate pat) n),
        (pat, translate pat) :: cache)
    else
      none

/-- A cache state reachable by the module's own calls: every entry holds the
successfully compiled translation of its key. -/
def wfCache (cache : Cache) : Prop :=
  ∀ p r, (p, r) ∈ cache → r = translate p ∧ compileOk r = true

theorem char_toNat_injective {a b : Char} (h : a.toNat = b.toNat) : a = b := by
  have h2 := congrArg Char.ofNat h
  simpa [Char.ofNat_toNat] using h2

theorem toNat_between_self (d c : Char) :
    (d.toNat ≤ c.toNat && c.toNat ≤ d.toNat) = decide (c = d) := by
  rw [← Bool.decide_and, decide_eq_decide]
  constructor
  · rintro ⟨h1, h2⟩
    exact char_toNat_injective (Nat.le_antisymm h2 h1)
  · rintro rfl
    exact ⟨Nat.le_refl _, Nat.le_refl _⟩

theorem dollarEnd_eq (s : List Char) :
    dollarEnd s = decide (s = [] ∨ s = ['\n']) := by
  rcases s with _ | ⟨c, _ | ⟨d, s⟩⟩
  · simp [dollarEnd]
  · by_cases h : c = '\n'
    · subst h; simp [dollarEnd]
    · simp [dollarEnd, h]
  · simp [dollarEnd]

theorem compileOk_cons (t : RTok) (ts : List RTok) :
    compileOk (t :: ts) = (tokOk t && compileOk ts) := by
  simp [compileOk]

theorem translateL_cons_lit (c : Char) (rest : List Char) (ms : Bool)
    (h1 : c ≠ '*') (h2 : c ≠ '?') (h3 : c ≠ '[') :
    translateL (c :: rest) ms = RTok.lit c :: translateL rest ms := by
  show translateFuel (rest.length + 1) (c :: rest) ms = _
  rw [translateFuel]
  all_goals first | rfl | (intros; simp_all)

theorem translateL_star2 (rest : List Char) (ms : Bool) :
    translateL ('*' :: '*' :: rest) ms = translateL ('*' :: rest) true := rfl

theorem translateL_star_nil (ms : Bool) :
    translateL ['*'] ms = [if ms then RTok.star else RTok.starNoSlash] := rfl

theorem translateL_star1 (c : Char) (rest : List Char) (ms : Bool) (h : c ≠ '*') :
    translateL ('*' :: c :: rest) ms =
      (if ms then RTok.star else RTok.starNoSlash) :: translateL (c :: rest) ms := by
  show translateFuel (rest.length + 2) ('*' :: c :: rest) ms = _
  rw [translateFuel]
  all_goals first | rfl | (intros; simp_all)

theorem translateL_q (rest : List Char) (ms : Bool) :
    translateL ('?' :: rest) ms = RTok.dot :: translateL rest ms := rfl

theorem translateL_lbracket_none (rest : List Char) (ms : Bool)
    (h : classScan rest = none) :
    translateL ('[' :: rest) ms = RTok.litLBracket :: translateL rest ms := by
  show translateFuel (rest.length + 1) ('[' :: rest) ms = _
  rw [translateFuel]
  · rw [h]
    rfl

theorem translateL_lbracket_some (rest stuff0 after : List Char) (ms : Bool)
    (h : classScan rest = some (stuff0, after)) :
    translateL ('[' :: rest) ms =
      RTok.cls (classStuff stuff0) :: translateFuel rest.length after ms := by
  show translateFuel (rest.length + 1) ('[' :: rest) ms = _
  rw [translateFuel]
  · rw [h]

theorem reMatchAux_nil (s : List Char) : reMatchAux [] s = dollarEnd s := rfl

theorem reMatchAux_lits (l s : List Char) :
    reMatchAux (l.map RTok.lit) s = decide (s = l ∨ s = l ++ ['\n']) := by
  induction l generalizing s with
  | nil => simpa using dollarEnd_eq s
  | cons c l ih =>
    rcases s with _ | ⟨c2, s⟩
    · simp [reMatchAux]
    · simp only [List.map_cons, reMatchAux, ih]
      by_cases h : c2 = c
      · subst h; simp
      · simp [h]

theorem compileOk_lits (l : List Char) : compileOk (l.map RTok.lit) = true := by
  simp [compileOk, List.all_map]
  intro c _
  rfl

theorem translateL_lits (l : List Char) (ms : Bool)
    (h : ∀ c ∈ l, c ≠ '*' ∧ c ≠ '?' ∧ c ≠ '[') :
    translateL l ms = l.map RTok.lit := by
  induction l generalizing ms with
  | nil => rfl
  | cons c rest ih =>
    obtain ⟨h1, h2, h3⟩ := h c (List.mem_cons_self c rest)
    rw [translateL_cons_lit c rest ms h1 h2 h3,
      ih ms (fun d hd => h d (List.mem_cons_of_mem _ hd))]
    rfl

theorem compileOk_translateL (l : List Char) :
    ∀ ms, '[' ∉ l → compileOk (translateL l ms) = true := by
  induction l with
  | nil => intro ms _; rfl
  | cons c rest ih =>
    intro ms h
    have hrest : '[' ∉ rest := fun hx => h (List.mem_cons_of_mem _ hx)
    have hc : c ≠ '[' := by
      intro hx
      exact h (by rw [← hx]; exact List.mem_cons_self _ _)
    by_cases h1 : c = '*'
    · subst h1
      rcases rest with _ | ⟨c2, rest2⟩
      · cases ms <;> rfl
      · by_cases h2 : c2 = '*'
        · subst h2
          rw [translateL_star2]
          exact ih true hrest
        · rw [translateL_star1 c2 rest2 ms h2, compileOk_cons]
          have h3 := ih ms hrest
          cases ms <;> simp_all [tokOk]
    · by_cases h2 : c = '?'
      · subst h2
        rw [translateL_q, compileOk_cons]
        simpa [tokOk] using ih ms hrest
      · rw [translateL_cons_lit c rest ms h1 h2 hc, compileOk_cons]
        simpa [tokOk] using ih ms hrest

theorem cacheFind_mem (cache : Cache) (pat : List Char) (r : List RTok)
    (h : cacheFind cache pat = some r) : (pat, r) ∈ cache := by
  induction cache with
  | nil => cases h
  | cons e rest ih =>
    obtain ⟨p, r2⟩ := e
    rw [cacheFind] at h
    split at h
    · rename_i hp
      injection h with h
      subst hp
      subst h
      exact List.mem_cons_self _ _
    · exact List.mem_cons_of_mem _ (ih h)

/-- Claim C1 (code bug): the claim — and the module's own docstrings — say a
star run of length exactly 1 compiles to "zero or more characters other than
`/`" at every position of the pattern.  The code instead initialises the
`multistars` flag once, outside the scan loop, and never resets it, so after
any `**` run every later single-star run also compiles to `".*"` and crosses
`/`: in `"a**b*c"` the final single star emits `RTok.star`, and `"a/b/c"`
matches.  The claim's three concrete examples (patterns without a preceding
multi-star run) do hold. -/
theorem sticky_multistars_bug :
    translate "a**b*c".data =
      [RTok.lit 'a', RTok.star, RTok.lit 'b', RTok.star, RTok.lit 'c'] ∧
    fnmatchcase "a/b/c" "a**b*c" = some true ∧
    fnmatchcase "a/b" "a*b" = some false ∧
    fnmatchcase "a/b" "a**b" = some true ∧
    fnmatchcase "ab" "a*b" = some true := by
  refine ⟨by decide, by decide, by decide, by decide, by decide⟩

/-- Claim C2 counterexample: the translated regex is anchored with `"$"`, and
Python's `'$'` also matches just before a newline that ends the string, so
the wildcard-free pattern `"a"` matches the distinct candidate `"a\n"`,
refuting `fnmatchcase(S, P) = (S = P)`. -/
theorem literal_pattern_newline_cex :
    fnmatchcase "a\n" "a" = some true ∧ ("a\n" : String) ≠ "a" := by
  refine ⟨by decide, by decide⟩

/-- Claim C2 (amended): for a pattern with no wildcard token (`*`, `?`, `[`),
`fnmatchcase` accepts exactly the pattern itself and the pattern followed by
one trailing newline — the `"$"` anchor admits a final `'\n'`. -/
theorem fnmatchcaseL_literal (S P : List Char)
    (h : ∀ c ∈ P, c ≠ '*' ∧ c ≠ '?' ∧ c ≠ '[') :
    fnmatchcaseL S P = some (decide (S = P ∨ S = P ++ ['\n'])) := by
  have ht := translateL_lits P false h
  simp only [fnmatchcaseL, translate, ht, compileOk_lits, if_true, reMatchAux_lits]

/-- Witness for the amended claim C2 at the concrete literal pattern
`"ab"`. -/
theorem fnmatchcaseL_literal_witness :
    fnmatchcaseL "ab".data "ab".data =
      some (decide ("ab".data = "ab".data ∨ "ab".data = "ab".data ++ ['\n'])) :=
  fnmatchcaseL_literal "ab".data "ab".data (by decide)

/-- Claim C3 counterexample: the instruction emitted for `?` is the regex
`"."`, which in Python refuses `'\n'`, so the one-character candidate `"\n"`
does not match `"?"`; and through the `"$"` anchor the two-character
candidate `"a\n"` does match it.  Both refute the claim. -/
theorem qmark_newline_cex :
    fnmatchcase "\n" "?" = some false ∧ fnmatchcase "a\n" "?" = some true := by
  refine ⟨by decide, by decide⟩

/-- Claim C3 (amended): the pattern `"?"` matches exactly the one-character
candidates other than `"\n"`, and those same candidates followed by one
trailing newline; everything else (the empty string, `"\n"`, and any other
candidate of length at least 2) is rejected. -/
theorem fnmatchcaseL_qmark (S : List Char) :
    fnmatchcaseL S ['?'] =
      some (match S with
        | [c] => decide (c ≠ '\n')
        | [c, d] => decide (c ≠ '\n' ∧ d = '\n')
        | _ => false) := by
  have h : fnmatchcaseL S ['?'] = some (reMatchAux [RTok.dot] S) := rfl
  rw [h]
  rcases S with _ | ⟨c, _ | ⟨d, _ | ⟨e, S⟩⟩⟩
  · rfl
  · by_cases hc : c = '\n'
    · subst hc; simp [reMatchAux, dollarEnd]
    · simp [reMatchAux, dollarEnd, hc]
  · by_cases hc : c = '\n'
    · subst hc; simp [reMatchAux, dollarEnd]
    · by_cases hd : d = '\n'
      · subst hd; simp [reMatchAux, dollarEnd, hc]
      · simp [reMatchAux, dollarEnd, hc, hd]
  · simp [reMatchAux, dollarEnd]

/-- Claim C4 counterexample: `fnmatchcase("x", "[z-a]")` raises `re.error`
(`re.compile` rejects the reversed class range the translator emits), so the
entry points are not total; and the empty pattern also matches the
single-newline candidate `"\n"` (the `"$"` anchor), not only the empty
candidate. -/
theorem totality_cex :
    fnmatchcase "x" "[z-a]" = none ∧ fnmatchcase "\n" "" = some true := by
  refine ⟨by decide, by decide⟩

/-- Claim C4 (amended): every pattern without a `'['` (hence without a
character class) compiles, so the entry points return a boolean on such
inputs — the only failure mode is a class whose body contains a reversed
range, where `re.compile` raises; and the empty pattern matches exactly the
empty candidate and the candidate `"\n"`. -/
theorem entrypoint_totality :
    (∀ S P : List Char, '[' ∉ P → (fnmatchcaseL S P).isSome = true) ∧
      ∀ S : List Char, fnmatchcaseL S [] = some (decide (S = [] ∨ S = ['\n'])) := by
  constructor
  · intro S P h
    have hc := compileOk_translateL P false h
    simp [fnmatchcaseL, translate, hc]
  · intro S
    have h : fnmatchcaseL S [] = some (reMatchAux [] S) := rfl
    rw [h, reMatchAux_nil, dollarEnd_eq]

/-- Witness for the amended claim C4 at a concrete class-free pattern. -/
theorem entrypoint_totality_witness :
    (fnmatchcaseL "x".data "ab*c?".data).isSome = true :=
  entrypoint_totality.1 "x".data "ab*c?".data (by decide)

/-- Claim C5: `fnmatch` lower-cases both arguments and delegates to
`fnmatchcase`, and the three case-folding examples of the spec hold. -/
theorem fnmatch_lower_delegation :
    (∀ S P : String, fnmatch S P = fnmatchcase (pyLower S) (pyLower P)) ∧
    fnmatch "My/Repos" "m**" = some true ∧
    fnmatchcase "My/Repos" "m**" = some false ∧
    fnmatchcase "My/Repos" "M**" = some true :=
  ⟨fun _ _ => rfl, by decide, by decide, by decide⟩

/-- Claim C6 counterexample: on a pattern whose class body holds a reversed
range, `filter` does not return the matching subsequence — the `re.compile`
call inside it raises and nothing is returned. -/
theorem filter_badrange_cex :
    filterPosix [] ["a".data] "[z-a]".data = none := by decide

/-- Claim C6 (amended): on the POSIX branch, whenever `filter` returns (the
pattern is cached or compiles), it returns exactly the `fnmatchcase`-matching
subsequence of the names in input order, and it extends the cache by at most
the one entry for the pattern (a single compilation for the whole call); the
spec's example `filter(["abc","abd","xyz"], "ab?") = ["abc","abd"]` holds. -/
theorem filterPosix_spec :
    (∀ (cache : Cache) (names : List (List Char)) (pat : List Char)
        (res : List (List Char)) (cache' : Cache), wfCache cache →
      filterPosix cache names pat = some (res, cache') →
      res = names.filter (fun n => decide (fnmatchcaseL n pat = some true)) ∧
        (cache' = cache ∨ cache' = (pat, translate pat) :: cache)) ∧
    filterPosix [] ["abc".data, "abd".data, "xyz".data] "ab?".data =
      some (["abc".data, "abd".data], [("ab?".data, translate "ab?".data)]) := by
  constructor
  · intro cache names pat res cache' hwf h
    have key : ∀ toks, toks = translate pat → compileOk toks = true →
        names.filter (fun n => reMatchAux toks n) =
          names.filter (fun n => decide (fnmatchcaseL n pat = some true)) := by
      intro toks ht hok
      apply List.filter_congr
      intro n _
      subst ht
      simp [fnmatchcaseL, hok]
    rw [filterPosix] at h
    split at h
    · rename_i toks hfind
      obtain ⟨ht, hok⟩ := hwf pat toks (cacheFind_mem cache pat toks hfind)
      injection h with h
      injection h with hres hcache
      subst hres
      subst hcache
      exact ⟨key toks ht hok, Or.inl rfl⟩
    · split at h
      · rename_i hok
        injection h with h
        injection h with hres hcache
        subst hres
        subst hcache
        exact ⟨key (translate pat) rfl hok, Or.inr rfl⟩
      · cases h
  · decide

/-- Witness for the amended claim C6: the general statement applied to the
empty cache and a concrete call. -/
theorem filterPosix_spec_witness :
    ["abc".data] =
        ["abc".data, "xyz".data].filter
          (fun n => decide (fnmatchcaseL n "ab?".data = some true)) ∧
      (([("ab?".data, translate "ab?".data)] : Cache) = ([] : Cache) ∨
        ([("ab?".data, translate "ab?".data)] : Cache) =
          ("ab?".data, translate "ab?".data) :: ([] : Cache)) :=
  filterPosix_spec.1 [] ["abc".data, "xyz".data] "ab?".data ["abc".data]
    [("ab?".data, translate "ab?".data)]
    (fun p r hmem => absurd hmem (List.not_mem_nil _)) (by decide)

/-- Claim C7: a `'['` whose terminator scan (skipping one optional leading
`'!'` and one further optional leading `']'`) finds no `']'` before the end
of the pattern is compiled as a literal character, at any position of the
pattern; in particular `"a[b"` matches itself. -/
theorem unterminated_class_literal :
    (∀ (l : List Char) (ms : Bool), classScan l = none →
      translateL ('[' :: l) ms = RTok.litLBracket :: translateL l ms) ∧
    fnmatchcase "a[b" "a[b" = some true :=
  ⟨fun l ms h => translateL_lbracket_none l ms h, by decide⟩

/-- Witness for claim C7 at the concrete unterminated pattern `"[b"`. -/
theorem unterminated_class_literal_witness :
    translateL ['[', 'b'] false = RTok.litLBracket :: translateL ['b'] false :=
  unterminated_class_literal.1 ['b'] false (by decide)

/-- Claim C8: `"[!a]"` matches exactly the single characters other than
`'a'` (the leading `'!'` is rewritten to the engine's `'^'`), `"[a]"`
matches exactly `'a'`, and a literal leading `'^'` in a class body is
escaped, so `"[^a]"` matches `'^'` and `'a'` as ordinary members and is
never a negation. -/
theorem class_negation (c : Char) :
    fnmatchcaseL [c] "[!a]".data = some (decide (c ≠ 'a')) ∧
    fnmatchcaseL [c] "[a]".data = some (decide (c = 'a')) ∧
    fnmatchcaseL [c] "[^a]".data = some (decide (c = '^' ∨ c = 'a')) := by
  have hneg : fnmatchcaseL [c] "[!a]".data =
      some (reMatchAux [RTok.cls ['^', 'a']] [c]) := rfl
  have hpos : fnmatchcaseL [c] "[a]".data =
      some (reMatchAux [RTok.cls ['a']] [c]) := rfl
  have hcar : fnmatchcaseL [c] "[^a]".data =
      some (reMatchAux [RTok.cls ['\\', '^', 'a']] [c]) := rfl
  have hB1 : clsBody ['^', 'a'] = (true, ['a']) := rfl
  have hB2 : clsBody ['a'] = (false, ['a']) := rfl
  have hB3 : clsBody ['\\', '^', 'a'] = (false, ['\\', '^', 'a']) := rfl
  have hI1 : clsItems ['a'] = some [('a', 'a')] := rfl
  have hI3 : clsItems ['\\', '^', 'a'] = some [('^', '^'), ('a', 'a')] := rfl
  refine ⟨?_, ?_, ?_⟩
  · rw [hneg]
    simp only [reMatchAux, clsMatch, hB1, hI1, dollarEnd, List.any_cons,
      List.any_nil, Bool.or_false, Bool.and_true, toNat_between_self]
    by_cases h : c = 'a' <;> simp [h]
  · rw [hpos]
    simp only [reMatchAux, clsMatch, hB2, hI1, dollarEnd, List.any_cons,
      List.any_nil, Bool.or_false, Bool.and_true, toNat_between_self]
    by_cases h : c = 'a' <;> simp [h]
  · rw [hcar]
    simp only [reMatchAux, clsMatch, hB3, hI3, dollarEnd, List.any_cons,
      List.any_nil, Bool.or_false, Bool.and_true, toNat_between_self]
    by_cases h1 : c = '^' <;> by_cases h2 : c = 'a' <;> simp [h1, h2]

/-- Claim C9: the result of `fnmatchcase` is independent of the prior
contents of the compiled-pattern cache — on any cache reachable by earlier
`fnmatchcase`/`filter` calls (`wfCache`, which both calls preserve and which
holds for the initial empty cache), the cache-threading entry point returns
exactly the cacheless result. -/
theorem cache_transparency :
    (∀ (cache : Cache) (S P : List Char), wfCache cache →
        (fnmatchcaseCache cache S P).map Prod.fst = fnmatchcaseL S P) ∧
      (∀ (cache : Cache) (S P : List Char) (res : Bool × Cache), wfCache cache →
        fnmatchcaseCache cache S P = some res → wfCache res.2) ∧
      (∀ (cache : Cache) (names : List (List Char)) (P : List Char)
          (res : List (List Char) × Cache), wfCache cache →
        filterPosix cache names P = some res → wfCache res.2) ∧
      wfCache ([] : Cache) := by
  have hpreserve : ∀ (cache : Cache) (P : List Char),
      wfCache cache → compileOk (translate P) = true →
      wfCache ((P, translate P) :: cache) := by
    intro cache P hwf hok p r hmem
    rcases List.mem_cons.mp hmem with h1 | h1
    · injection h1 with e1 e2
      subst e1
      subst e2
      exact ⟨rfl, hok⟩
    · exact hwf p r h1
  refine ⟨?_, ?_, ?_, fun p r hmem => absurd hmem (List.not_mem_nil _)⟩
  · intro cache S P hwf
    rw [fnmatchcaseCache]
    split
    · rename_i toks hfind
      obtain ⟨ht, hok⟩ := hwf P toks (cacheFind_mem cache P toks hfind)
      subst ht
      simp [fnmatchcaseL, hok]
    · by_cases hok : compileOk (translate P) = true
      · simp [fnmatchcaseL, hok]
      · simp [fnmatchcaseL, hok]
  · intro cache S P res hwf h
    rw [fnmatchcaseCache] at h
    split at h
    · injection h with h
      subst h
      exact hwf
    · split at h
      · rename_i hok
        injection h with h
        subst h
        exact hpreserve cache P hwf hok
      · cases h
  · intro cache names P res hwf h
    rw [filterPosix] at h
    split at h
    · injection h with h
      subst h
      exact hwf
    · split at h
      · rename_i hok
        injection h with h
        subst h
        exact hpreserve cache P hwf hok
      · cases h

/-- Witness for claim C9: the cacheless/cached agreement applied at the
empty cache and a concrete candidate and pattern. -/
theorem cache_transparency_witness :
    (fnmatchcaseCache [] "ab".data "a*".data).map Prod.fst =
      fnmatchcaseL "ab".data "a*".data :=
  cache_transparency.1 [] "ab".data "a*".data
    (fun _ _ hmem => absurd hmem (List.not_mem_nil _))

/-- Claim C10: in the pattern `"[!]"` the terminator scan skips the `']'`
that follows the leading `'!'`, finds no terminator, and degrades the `'['`
to a literal, so `"[!]"` matches itself literally and matches no
single-character candidate. -/
theorem negated_empty_class_literal :
    fnmatchcase "[!]" "[!]" = some true ∧
      ∀ c : Char, fnmatchcaseL [c] "[!]".data = some false := by
  refine ⟨by decide, fun c => ?_⟩
  have h : fnmatchcaseL [c] "[!]".data =
      some (reMatchAux [RTok.litLBracket, RTok.lit '!', RTok.lit ']'] [c]) := rfl
  rw [h]
  simp [reMatchAux]

end Gitosis
